import Mathlib

/-!
Verification development for the weekly check-in tracker server
(`src/server.js`).  The JavaScript source is shallowly embedded:

* spreadsheet cell grids are `List (List String)` (a missing cell reads
  as the empty string, as `(r[i] || "").toString()` does);
* the process-wide mutable objects `currentWeek` / `currentTeachers`
  are insertion-ordered association lists, matching JavaScript object
  key semantics (assignment to an existing key keeps its position, a
  new key is appended);
* the two Google-Sheets tabs are modelled at the row level as lists of
  parsed rows, appends going to the end;
* the Express handlers `POST /endweek` and `POST /add` become pure
  state transformers; the outcome of each fallible store call is an
  explicit boolean parameter (`true` = the awaited call returns,
  `false` = it throws), and a throw caught by the handler's
  `catch (e) \x7b console.log(...) \x7d` is modelled by appending to a
  `log` field;
* calendar instants are civil day numbers (days since 1970-01-01);
  `Date.getDay` becomes `jsWeekday`, `toISOString().split("T")[0]` is
  the identity on the day number (dates are compared as values, not as
  rendered strings).
-/

namespace Tracker

/-- ASCII whitespace, the fragment of the characters
`String.prototype.trim` strips that appears in sheet cells. -/
def isJsSpace (c : Char) : Bool := c = ' ' || c = '\t' || c = '\n' || c = '\r'

/-- `String.prototype.trim` (on ASCII whitespace), implemented by
structural recursion on the character list so that concrete instances
evaluate inside the kernel. -/
def jsTrim (s : String) : String :=
  ⟨((s.data.dropWhile isJsSpace).reverse.dropWhile isJsSpace).reverse⟩

/-- Lower-case one character (`String.prototype.toLowerCase` on ASCII). -/
def lowerChar (c : Char) : Char :=
  if 'A' ≤ c ∧ c ≤ 'Z' then Char.ofNat (c.toNat + 32) else c

/-- `String.prototype.toLowerCase` on ASCII, by structural recursion. -/
def jsToLower (s : String) : String := ⟨s.data.map lowerChar⟩

/-- `normalizeStudentName` from server.js: `(s || "").trim()`. -/
def normalizeStudentName (s : String) : String := jsTrim s

/-- `normalizeOwner` from server.js: `(s || "").trim().toLowerCase()`. -/
def normalizeOwner (s : String) : String := jsToLower (jsTrim s)

/-- `ownerStudentKey` from server.js: the template string `owner||student`. -/
def ownerStudentKey (owner student : String) : String :=
  owner ++ "||" ++ student

/-- `Date.prototype.getDay` on a civil day number (days since
1970-01-01, which was a Thursday): Sun = 0 … Sat = 6. -/
def jsWeekday (n : Int) : Int := (n + 4) % 7

/-- `getWeekEndingFridayISO` from server.js, on day numbers: two
independent `if`s on the weekday of `now`, then add `5 - getDay()` of
the adjusted date. -/
def getWeekEndingFriday (now : Int) : Int :=
  let day := jsWeekday now
  let t1 := if day = 6 then now - 1 else now
  let t2 := if day = 0 then t1 - 2 else t1
  t2 + (5 - jsWeekday t2)

/-- Civil date to day number (days since 1970-01-01), the standard
days-from-civil computation with floor division; used only to state
concrete calendar examples. -/
def civilToDay (y m d : Int) : Int :=
  let yr := if m ≤ 2 then y - 1 else y
  let era := Int.fdiv yr 400
  let yoe := yr - era * 400
  let mp := Int.emod (m + 9) 12
  let doy := Int.fdiv (153 * mp + 2) 5 + d - 1
  let doe := yoe * 365 + Int.fdiv yoe 4 - Int.fdiv yoe 100 + doy
  era * 146097 + doe - 719468

/-- Numeric value of a digit string (most significant first). -/
def digitsVal (l : List Char) : Nat :=
  l.foldl (fun acc c => acc * 10 + (c.toNat - 48)) 0

/-- JavaScript `Number(s)` on an already-trimmed cell string,
restricted to the fragment the check-in pipeline produces: the empty
string converts to `0`, an optional sign followed by decimal digits
converts to that integer, and every other string is `NaN` (`none`).
(JavaScript additionally accepts fractional, exponent, hex and
`Infinity` literals; those shapes are outside the modelled fragment.) -/
def jsNumber (s : String) : Option Int :=
  if s = "" then some 0
  else
    match s.data with
    | '-' :: rest =>
        if rest ≠ [] ∧ rest.all Char.isDigit then
          some (-(digitsVal rest : Int))
        else none
    | '+' :: rest =>
        if rest ≠ [] ∧ rest.all Char.isDigit then
          some ((digitsVal rest : Int))
        else none
    | l =>
        if l.all Char.isDigit then some ((digitsVal l : Int)) else none

/-- `(r[i] || "").toString()`: cell `i` of a raw row, empty when absent. -/
def getCell (r : List String) (i : Nat) : String := r.getD i ""

/-- A parsed history row as produced by `readHistoryRows`. -/
structure HistoryRow where
  owner : String
  student : String
  weekEnding : String
  checkins : Int
  teacher : String
deriving DecidableEq, Repr

/-- The body of the `readHistoryRows` loop for one raw row: normalize
the five cells and drop the row when owner, student or weekEnding is
blank or the count is `NaN`. -/
def parseHistoryRow (r : List String) : Option HistoryRow :=
  let owner := normalizeOwner (getCell r 0)
  let student := jsTrim (getCell r 1)
  let weekEnding := jsTrim (getCell r 2)
  let teacher := jsTrim (getCell r 4)
  match jsNumber (jsTrim (getCell r 3)) with
  | none => none
  | some c =>
      if owner = "" ∨ student = "" ∨ weekEnding = "" then none
      else some ⟨owner, student, weekEnding, c, teacher⟩

/-- `readHistoryRows` from server.js on the raw value grid (header row
included): at most one header row yields `[]`, otherwise each data row
is parsed and malformed rows are skipped. -/
def readHistoryRows (values : List (List String)) : List HistoryRow :=
  if values.length ≤ 1 then []
  else (values.drop 1).filterMap parseHistoryRow

/-- A parsed roster row as produced by `readStudentsList`. -/
structure StudentRow where
  owner : String
  student : String
deriving DecidableEq, Repr

/-- The body of the `readStudentsList` loop for one raw row: keep the
row only when both owner and student are non-blank. -/
def parseStudentRow (r : List String) : Option StudentRow :=
  let owner := normalizeOwner (getCell r 0)
  let student := jsTrim (getCell r 1)
  if owner = "" ∨ student = "" then none else some ⟨owner, student⟩

/-- `readStudentsList` from server.js on the raw value grid. -/
def readStudentsList (values : List (List String)) : List StudentRow :=
  if values.length ≤ 1 then []
  else (values.drop 1).filterMap parseStudentRow

/-- Lookup in an insertion-ordered association list (JavaScript object
property read / `Map.prototype.get`). -/
def dictGet {α : Type} : List (String × α) → String → Option α
  | [], _ => none
  | p :: t, k => if p.1 = k then some p.2 else dictGet t k

/-- Update in an insertion-ordered association list (JavaScript object
property assignment / `Map.prototype.set`): an existing key keeps its
position, a new key is appended. -/
def dictSet {α : Type} : List (String × α) → String → α → List (String × α)
  | [], k, v => [(k, v)]
  | p :: t, k, v => if p.1 = k then (k, v) :: t else p :: dictSet t k v

/-- One appended row of the history tab
(`saveWeekToHistory` appends `[o, student, friday, count, teacherSummary]`). -/
structure LedgerRow where
  owner : String
  student : String
  weekEnding : Int
  checkins : Nat
  teacher : String
deriving DecidableEq, Repr

/-- The mutable state a handler can touch: the two in-memory maps, the
two sheet tabs (at parsed-row level), and the console log. -/
structure ServerState where
  currentWeek : List (String × Nat)
  currentTeachers : List (String × List String)
  studentsSheet : List StudentRow
  historySheet : List LedgerRow
  log : List String
deriving DecidableEq, Repr

/-- The observable HTTP outcome of a handler (redirect target;
`encodeURIComponent` is not modelled, the raw student name is kept). -/
inductive Response where
  | redirectLogin : Response
  | redirectHome : Response
  | redirectStudent : String → Response
deriving DecidableEq, Repr

/-- The state effect of a successful `ensureStudentInSheet(owner, name)`
call: no-op on blank inputs, otherwise append `(o, student)` to the
Students tab unless a case-insensitive match for the student already
exists under the same owner. -/
def ensureStudentInSheet (st : ServerState) (owner name : String) : ServerState :=
  let o := normalizeOwner owner
  let student := normalizeStudentName name
  if o = "" ∨ student = "" then st
  else if st.studentsSheet.any
      (fun r => r.owner == o && jsToLower r.student == jsToLower student) then st
  else { st with studentsSheet := st.studentsSheet ++ [⟨o, student⟩] }

/-- The state effect of a successful `saveWeekToHistory` call: append
one row to the history tab. -/
def saveWeekToHistory (st : ServerState) (owner student : String)
    (friday : Int) (count : Nat) (teacherSummary : String) : ServerState :=
  { st with historySheet :=
      st.historySheet ++ [⟨normalizeOwner owner, student, friday, count, teacherSummary⟩] }

/-- The teacher-summary expression of the endweek handler:
`(currentTeachers[key] || []).map(t => t.trim()).filter(Boolean).join("; ")`. -/
def joinTeachers (l : List String) : String :=
  String.intercalate "; " ((l.map jsTrim).filter (fun t => t != ""))

/-- `POST /endweek` from server.js.  `ensureOk` and `appendOk` are the
outcomes of the two awaited store writes (`false` = the call throws
without changing the store); a thrown error is caught by the handler's
`catch`, which logs and falls through to the same redirect. -/
def endWeek (st : ServerState) (user student : String) (now : Int)
    (ensureOk appendOk : Bool) : ServerState × Response :=
  let owner := normalizeOwner user
  if owner = "" then (st, Response.redirectLogin)
  else
    let s := normalizeStudentName student
    if s = "" then (st, Response.redirectHome)
    else
      let key := ownerStudentKey owner s
      if ensureOk = false then
        ({ st with log := st.log ++ ["[endweek] ERROR"] }, Response.redirectStudent s)
      else
        let st1 := ensureStudentInSheet st owner s
        let count := (dictGet st1.currentWeek key).getD 0
        let friday := getWeekEndingFriday now
        let teacherSummary := joinTeachers ((dictGet st1.currentTeachers key).getD [])
        if appendOk = false then
          ({ st1 with log := st1.log ++ ["[endweek] ERROR"] }, Response.redirectStudent s)
        else
          let st2 := saveWeekToHistory st1 owner s friday count teacherSummary
          let cw := dictSet st2.currentWeek key 0
          let ct := dictSet st2.currentTeachers key []
          let st3 := { st2 with currentWeek := cw, currentTeachers := ct }
          (st3, Response.redirectStudent s)

/-- `POST /add` from server.js: saturating increment
`currentWeek[key] = Math.min((currentWeek[key] || 0) + 1, 5)` and an
optional teacher note. -/
def addCheckIn (st : ServerState) (user student teacherRaw : String) :
    ServerState × Response :=
  let owner := normalizeOwner user
  if owner = "" then (st, Response.redirectLogin)
  else
    let s := normalizeStudentName student
    if s = "" then (st, Response.redirectHome)
    else
      let key := ownerStudentKey owner s
      let newCount := min ((dictGet st.currentWeek key).getD 0 + 1) 5
      let st1 := { st with currentWeek := dictSet st.currentWeek key newCount }
      let teacher := jsTrim teacherRaw
      let st2 :=
        if teacher = "" then st1
        else
          let ts := (dictGet st1.currentTeachers key).getD [] ++ [teacher]
          { st1 with currentTeachers := dictSet st1.currentTeachers key ts }
      (st2, Response.redirectStudent s)

/-- One entry of the reconciled weekly history shown by `GET /`. -/
structure SummaryEntry where
  weekEnding : String
  checkins : Int
  teacher : String
deriving DecidableEq, Repr

/-- The body of the reconciliation loop of `GET /`: skip rows of other
owners or students; otherwise keep the stored record for this
weekEnding unless the new row's count is strictly greater. -/
def summaryStep (owner selected : String)
    (m : List (String × (Int × String))) (r : HistoryRow) :
    List (String × (Int × String)) :=
  if r.owner ≠ owner then m
  else if r.student ≠ selected then m
  else
    match dictGet m r.weekEnding with
    | none => dictSet m r.weekEnding (r.checkins, r.teacher)
    | some prev =>
        if r.checkins > prev.1 then dictSet m r.weekEnding (r.checkins, r.teacher)
        else m

/-- The sort relation of the `weeklySummary` comparator: descending by
`weekEnding` (the comparator returns `-1` when `a.weekEnding >
b.weekEnding`). -/
def entriesDescLe (a b : SummaryEntry) : Prop := b.weekEnding ≤ a.weekEnding

instance : DecidableRel entriesDescLe := fun a b =>
  inferInstanceAs (Decidable (b.weekEnding ≤ a.weekEnding))

/-- `weeklySummary` from `GET /`: fold the reconciliation map over the
raw history rows in order, turn the map entries into summary entries,
and sort by weekEnding descending. -/
def weeklySummary (owner selected : String) (rows : List HistoryRow) :
    List SummaryEntry :=
  let m := rows.foldl (summaryStep owner selected) []
  List.insertionSort entriesDescLe (m.map (fun p => ⟨p.1, p.2.1, p.2.2⟩))

/-- The roster shown by `GET /`: students of this owner from the
Students tab, then every student of this owner seen in the history
tab, deduplicated in insertion order (a JavaScript `Set`), with the
placeholder added when empty, sorted case-insensitively. -/
def setAdd (l : List String) (x : String) : List String :=
  if x ∈ l then l else l ++ [x]

/-- Case-insensitive comparison modelling
`localeCompare(..., \x7b sensitivity: "base" \x7d)` on ASCII names:
compare the lower-cased strings. -/
def ciLe (a b : String) : Prop := jsToLower a ≤ jsToLower b

instance : DecidableRel ciLe := fun a b =>
  inferInstanceAs (Decidable (jsToLower a ≤ jsToLower b))

/-- `listSubjects` (the student-list computation of `GET /`). -/
def listSubjects (studentsRows : List StudentRow) (historyRows : List HistoryRow)
    (owner : String) : List String :=
  let ownerStudents := (studentsRows.filter (fun r => r.owner == owner)).map (·.student)
  let set1 := ownerStudents.foldl setAdd []
  let set2 := ((historyRows.filter (fun r => r.owner == owner)).map (·.student)).foldl setAdd set1
  let set3 := if set2.isEmpty then set2 ++ ["Student 1"] else set2
  List.insertionSort ciLe set3

/-- `listSubjects` on the raw sheet grids, as the route composes it. -/
def listSubjectsRaw (studentsValues historyValues : List (List String))
    (owner : String) : List String :=
  listSubjects (readStudentsList studentsValues) (readHistoryRows historyValues) owner

/-! ### Generic lemmas about the embedded operations -/

theorem ensureStudentInSheet_currentWeek (st : ServerState) (o n : String) :
    (ensureStudentInSheet st o n).currentWeek = st.currentWeek := by
  simp only [ensureStudentInSheet]
  split_ifs <;> rfl

theorem ensureStudentInSheet_currentTeachers (st : ServerState) (o n : String) :
    (ensureStudentInSheet st o n).currentTeachers = st.currentTeachers := by
  simp only [ensureStudentInSheet]
  split_ifs <;> rfl

theorem ensureStudentInSheet_historySheet (st : ServerState) (o n : String) :
    (ensureStudentInSheet st o n).historySheet = st.historySheet := by
  simp only [ensureStudentInSheet]
  split_ifs <;> rfl

/-- With a failing ledger append, no path of the endweek handler
touches the in-memory counter maps. -/
theorem endWeek_appendFail_counters (st : ServerState) (user student : String)
    (now : Int) (ensureOk : Bool) :
    (endWeek st user student now ensureOk false).1.currentWeek = st.currentWeek ∧
    (endWeek st user student now ensureOk false).1.currentTeachers = st.currentTeachers := by
  cases ensureOk <;>
    · simp only [endWeek]
      split_ifs <;>
        simp [ensureStudentInSheet_currentWeek, ensureStudentInSheet_currentTeachers]

/-- With a failing roster registration, the endweek handler leaves all
durable and in-memory data unchanged. -/
theorem endWeek_ensureFail_state (st : ServerState) (user student : String)
    (now : Int) (appendOk : Bool) :
    (endWeek st user student now false appendOk).1.historySheet = st.historySheet ∧
    (endWeek st user student now false appendOk).1.studentsSheet = st.studentsSheet ∧
    (endWeek st user student now false appendOk).1.currentWeek = st.currentWeek ∧
    (endWeek st user student now false appendOk).1.currentTeachers = st.currentTeachers := by
  simp only [endWeek]
  split_ifs <;> simp

/-- The endweek handler's response does not depend on the outcome of
the ledger append. -/
theorem endWeek_response_independent_of_append (st : ServerState)
    (user student : String) (now : Int) (ensureOk : Bool) :
    (endWeek st user student now ensureOk false).2 =
      (endWeek st user student now ensureOk true).2 := by
  cases ensureOk <;>
    · simp only [endWeek]
      split_ifs <;> rfl

/-- Case analysis of the Week Clock: Saturday rolls back one day,
Sunday two days, Monday through Friday jump forward to the week's
Friday; the result always lands on a Friday. -/
theorem weekClock_cases (now : Int) :
    (jsWeekday now = 6 → getWeekEndingFriday now = now - 1) ∧
    (jsWeekday now = 0 → getWeekEndingFriday now = now - 2) ∧
    (1 ≤ jsWeekday now → jsWeekday now ≤ 5 →
      getWeekEndingFriday now = now + (5 - jsWeekday now)) ∧
    jsWeekday (getWeekEndingFriday now) = 5 := by
  simp only [getWeekEndingFriday, jsWeekday]
  refine ⟨fun h => ?_, fun h => ?_, fun h1 h2 => ?_, ?_⟩ <;> split_ifs <;> omega

theorem dictGet_dictSet_self {α : Type} (m : List (String × α)) (k : String) (v : α) :
    dictGet (dictSet m k v) k = some v := by
  induction m with
  | nil => simp [dictGet, dictSet]
  | cons p t ih =>
      by_cases h : p.1 = k
      · simp [dictSet, dictGet, h]
      · simp [dictSet, dictGet, h, ih]

theorem dictGet_dictSet_ne {α : Type} (m : List (String × α)) (k k' : String) (v : α)
    (h : k' ≠ k) : dictGet (dictSet m k v) k' = dictGet m k' := by
  have hne : ¬ (k = k') := fun hk => h hk.symm
  induction m with
  | nil => simp [dictGet, dictSet, hne]
  | cons p t ih =>
      by_cases hp : p.1 = k
      · simp [dictSet, dictGet, hp, hne]
      · by_cases hp' : p.1 = k' <;> simp [dictSet, dictGet, hp, hp', ih, h]

/-! ### C1: roster registration inside the endweek handler -/

/-- C1 counterexample: with a counter of 3 for alice/bob and a failing
roster registration (and an append that would succeed), the endweek
handler appends nothing to the ledger and does not reset the counter —
the rollover does not proceed, contradicting the claim that roster
registration is best-effort. -/
theorem C1_counterexample :
    (endWeek ⟨[("alice||bob", 3)], [], [], [], []⟩ "alice" "bob" 19797 false true).1.historySheet
        = [] ∧
    (endWeek ⟨[("alice||bob", 3)], [], [], [], []⟩ "alice" "bob" 19797 false true).1.currentWeek
        = [("alice||bob", 3)] ∧
    (endWeek ⟨[("alice||bob", 3)], [], [], [], []⟩ "alice" "bob" 19797 false true).1.log
        = ["[endweek] ERROR"] :=
  ⟨rfl, rfl, rfl⟩

/-- C1 (amended): roster registration is not best-effort — it sits in
the same `try` block as the ledger append, so when `ensureStudentInSheet`
fails the whole rollover is aborted: no ledger append is performed, the
roster is unchanged, and the counter and annotation list are preserved
(the failure is caught, logged, and the handler still responds). -/
theorem C1_roster_failure_aborts_rollover (st : ServerState) (user student : String)
    (now : Int) (appendOk : Bool) :
    (endWeek st user student now false appendOk).1.historySheet = st.historySheet ∧
    (endWeek st user student now false appendOk).1.studentsSheet = st.studentsSheet ∧
    (endWeek st user student now false appendOk).1.currentWeek = st.currentWeek ∧
    (endWeek st user student now false appendOk).1.currentTeachers = st.currentTeachers :=
  endWeek_ensureFail_state st user student now appendOk

/-! ### C3: endWeek is count-preserving on append failure -/

/-- C3: for every prior state, if the ledger append fails, the counter
map and the annotation map after `endWeek` equal their values before
the call — the week's work is preserved for retry. -/
theorem C3_endWeek_count_preserving_on_append_failure (st : ServerState)
    (user student : String) (now : Int) (ensureOk : Bool) :
    (endWeek st user student now ensureOk false).1.currentWeek = st.currentWeek ∧
    (endWeek st user student now ensureOk false).1.currentTeachers = st.currentTeachers :=
  endWeek_appendFail_counters st user student now ensureOk

/-! ### C4: is an append failure reported to the caller? -/

/-- C4 counterexample: with a failing ledger append the endweek handler
produces exactly the same response as a successful run (the redirect to
the student page) — the failure is not reported to the caller. -/
theorem C4_counterexample :
    (endWeek ⟨[("alice||bob", 3)], [], [], [], []⟩ "alice" "bob" 19797 true false).2 =
      (endWeek ⟨[("alice||bob", 3)], [], [], [], []⟩ "alice" "bob" 19797 true true).2 ∧
    (endWeek ⟨[("alice||bob", 3)], [], [], [], []⟩ "alice" "bob" 19797 true false).2 =
      Response.redirectStudent "bob" :=
  ⟨rfl, rfl⟩

/-- C4 (amended): an append failure is caught inside the handler rather
than propagated: the response is identical to the success response, and
the counter state is preserved unchanged so the caller can retry. -/
theorem C4_append_failure_swallowed (st : ServerState) (user student : String)
    (now : Int) :
    (endWeek st user student now true false).2 =
      (endWeek st user student now true true).2 ∧
    (endWeek st user student now true false).1.currentWeek = st.currentWeek ∧
    (endWeek st user student now true false).1.currentTeachers = st.currentTeachers :=
  ⟨endWeek_response_independent_of_append st user student now true,
   (endWeek_appendFail_counters st user student now true).1,
   (endWeek_appendFail_counters st user student now true).2⟩

/-! ### C5: the §4.1 Week Clock contract -/

/-- C5 counterexample: Saturday 2024-03-16 (a day with weekday 6) maps
to 2024-03-15, the date one day prior — not the date six days prior as
the claim states. -/
theorem C5_counterexample :
    jsWeekday (civilToDay 2024 3 16) = 6 ∧
    getWeekEndingFriday (civilToDay 2024 3 16) = civilToDay 2024 3 15 ∧
    getWeekEndingFriday (civilToDay 2024 3 16) ≠ civilToDay 2024 3 16 - 6 :=
  ⟨by decide, by decide, by decide⟩

/-- C5 (amended): if `now` falls on Saturday the result is the date one
day prior (the preceding Friday); if Sunday, two days prior; otherwise
(Mon–Fri) `now + (5 − weekday(now))`. -/
theorem C5_week_clock_contract (now : Int) :
    (jsWeekday now = 6 → getWeekEndingFriday now = now - 1) ∧
    (jsWeekday now = 0 → getWeekEndingFriday now = now - 2) ∧
    (1 ≤ jsWeekday now → jsWeekday now ≤ 5 →
      getWeekEndingFriday now = now + (5 - jsWeekday now)) :=
  ⟨(weekClock_cases now).1, (weekClock_cases now).2.1, (weekClock_cases now).2.2.1⟩

/-- Witness for C5: the amended contract applied on the concrete
Saturday, Sunday and Wednesday of the 2024-03-15 week. -/
theorem C5_week_clock_contract_witness :
    getWeekEndingFriday 19798 = 19798 - 1 ∧
    getWeekEndingFriday 19799 = 19799 - 2 ∧
    getWeekEndingFriday 19795 = 19795 + (5 - jsWeekday 19795) :=
  ⟨(C5_week_clock_contract 19798).1 (by decide),
   (C5_week_clock_contract 19799).2.1 (by decide),
   (C5_week_clock_contract 19795).2.2 (by decide) (by decide)⟩

/-! ### C6: the §8 concrete Week Clock contract -/

/-- C6: Monday–Friday instants map to the Friday of the same Mon–Fri
span (a Friday at most four days ahead), Saturday to the immediately
preceding Friday, Sunday to the Friday two days prior; concretely,
Wednesday 2024-03-13, Saturday 2024-03-16, Sunday 2024-03-17 and
Friday 2024-03-15 all map to 2024-03-15. -/
theorem C6_week_clock_concrete (now : Int) :
    (1 ≤ jsWeekday now → jsWeekday now ≤ 5 →
      getWeekEndingFriday now = now + (5 - jsWeekday now) ∧
      now ≤ getWeekEndingFriday now ∧ getWeekEndingFriday now ≤ now + 4) ∧
    (jsWeekday now = 6 → getWeekEndingFriday now = now - 1) ∧
    (jsWeekday now = 0 → getWeekEndingFriday now = now - 2) ∧
    jsWeekday (getWeekEndingFriday now) = 5 ∧
    getWeekEndingFriday (civilToDay 2024 3 13) = civilToDay 2024 3 15 ∧
    getWeekEndingFriday (civilToDay 2024 3 16) = civilToDay 2024 3 15 ∧
    getWeekEndingFriday (civilToDay 2024 3 17) = civilToDay 2024 3 15 ∧
    getWeekEndingFriday (civilToDay 2024 3 15) = civilToDay 2024 3 15 := by
  obtain ⟨h6, h0, hmf, hfri⟩ := weekClock_cases now
  refine ⟨fun h1 h2 => ⟨hmf h1 h2, ?_, ?_⟩, h6, h0, hfri,
    by decide, by decide, by decide, by decide⟩
  · rw [hmf h1 h2]; omega
  · rw [hmf h1 h2]; omega

/-- Witness for C6: the Mon–Fri case applied on Wednesday 2024-03-13
and the weekend cases on 2024-03-16 and 2024-03-17. -/
theorem C6_week_clock_concrete_witness :
    getWeekEndingFriday 19795 = 19795 + (5 - jsWeekday 19795) ∧
    getWeekEndingFriday 19798 = 19798 - 1 ∧
    getWeekEndingFriday 19799 = 19799 - 2 :=
  ⟨((C6_week_clock_concrete 19795).1 (by decide) (by decide)).1,
   (C6_week_clock_concrete 19798).2.1 (by decide),
   (C6_week_clock_concrete 19799).2.2.1 (by decide)⟩

/-! ### C8: malformed history rows are skipped, the batch survives -/

/-- C8: a raw row with a blank owner, blank student, blank weekEnding
or a `NaN` count parses to nothing, and removing such a row from a
batch does not change what the history read returns — the remaining
valid rows are still served and no malformed row aborts the batch. -/
theorem C8_malformed_rows_skipped (header bad : List String) (xs ys : List (List String))
    (h : normalizeOwner (getCell bad 0) = "" ∨ jsTrim (getCell bad 1) = "" ∨
         jsTrim (getCell bad 2) = "" ∨ jsNumber (jsTrim (getCell bad 3)) = none) :
    parseHistoryRow bad = none ∧
    readHistoryRows (header :: (xs ++ bad :: ys)) = readHistoryRows (header :: (xs ++ ys)) := by
  have hb : parseHistoryRow bad = none := by
    simp only [parseHistoryRow]
    cases hj : jsNumber (jsTrim (getCell bad 3)) with
    | none => simp
    | some c =>
        rcases h with h | h | h | h
        · simp [h]
        · simp [h]
        · simp [h]
        · rw [h] at hj; exact absurd hj (by simp)
  refine ⟨hb, ?_⟩
  unfold readHistoryRows
  rw [if_neg (by simp only [List.length_cons, List.length_append]; omega)]
  by_cases hxy : (xs ++ ys).length = 0
  · have h0 : xs.length = 0 ∧ ys.length = 0 := by
      simp only [List.length_append] at hxy; omega
    have hx : xs = [] := List.length_eq_zero.mp h0.1
    have hy : ys = [] := List.length_eq_zero.mp h0.2
    subst hx; subst hy
    simp [hb]
  · rw [if_neg (by simp only [List.length_cons, List.length_append] at hxy ⊢; omega)]
    simp [List.filterMap_append, hb]

/-- Witness for C8: a batch of two valid rows around one row whose
count cell is the non-numeric string "abc" reads the same as the batch
without the corrupt row. -/
theorem C8_malformed_rows_skipped_witness :
    jsNumber (jsTrim (getCell ["t", "Sam", "2024-03-15", "abc", ""] 3)) = none ∧
    readHistoryRows
        [["owner", "student", "week_ending", "checkins", "teacher"],
         ["t", "Ann", "2024-03-08", "2", ""],
         ["t", "Sam", "2024-03-15", "abc", ""],
         ["t", "Bo", "2024-03-15", "4", ""]] =
      readHistoryRows
        [["owner", "student", "week_ending", "checkins", "teacher"],
         ["t", "Ann", "2024-03-08", "2", ""],
         ["t", "Bo", "2024-03-15", "4", ""]] :=
  ⟨by decide,
   (C8_malformed_rows_skipped ["owner", "student", "week_ending", "checkins", "teacher"]
      ["t", "Sam", "2024-03-15", "abc", ""]
      [["t", "Ann", "2024-03-08", "2", ""]] [["t", "Bo", "2024-03-15", "4", ""]]
      (Or.inr (Or.inr (Or.inr (by decide))))).2⟩

/-! ### C9: saturating increment of the counter -/

/-- The counter map after `addCheckIn` for a valid owner and student:
the key is set to `min (old + 1) 5`. -/
theorem addCheckIn_currentWeek (st : ServerState) (user student teacherRaw : String)
    (howner : normalizeOwner user ≠ "") (hstu : normalizeStudentName student ≠ "") :
    (addCheckIn st user student teacherRaw).1.currentWeek =
      dictSet st.currentWeek
        (ownerStudentKey (normalizeOwner user) (normalizeStudentName student))
        (min ((dictGet st.currentWeek
          (ownerStudentKey (normalizeOwner user) (normalizeStudentName student))).getD 0 + 1)
          5) := by
  simp only [addCheckIn]
  rw [if_neg howner, if_neg hstu]
  split_ifs <;> rfl

/-- C9: for a key with current count `c`, `addCheckIn` stores exactly
`c + 1` when `c ≤ CAP − 1` and leaves the count at `CAP` when
`c = CAP` (saturation, not an error), with `CAP = 5`; the stored value
is the value the handler's assignment expression produces. -/
theorem C9_addCheckIn_saturating (st : ServerState) (user student teacherRaw : String)
    (c : Nat)
    (howner : normalizeOwner user ≠ "")
    (hstu : normalizeStudentName student ≠ "")
    (hc : (dictGet st.currentWeek
        (ownerStudentKey (normalizeOwner user) (normalizeStudentName student))).getD 0 = c) :
    (c ≤ 4 →
      dictGet (addCheckIn st user student teacherRaw).1.currentWeek
        (ownerStudentKey (normalizeOwner user) (normalizeStudentName student)) =
        some (c + 1)) ∧
    (c = 5 →
      dictGet (addCheckIn st user student teacherRaw).1.currentWeek
        (ownerStudentKey (normalizeOwner user) (normalizeStudentName student)) =
        some 5) := by
  constructor
  · intro h
    rw [addCheckIn_currentWeek st user student teacherRaw howner hstu,
      dictGet_dictSet_self, hc]
    exact congrArg some (by omega)
  · intro h
    rw [addCheckIn_currentWeek st user student teacherRaw howner hstu,
      dictGet_dictSet_self, hc, h]
    exact congrArg some (by decide)

/-- Witness for C9: incrementing from 3 yields 4; incrementing from
the cap 5 leaves 5. -/
theorem C9_addCheckIn_saturating_witness :
    dictGet (addCheckIn ⟨[("alice||bob", 3)], [], [], [], []⟩ "alice" "bob" "").1.currentWeek
        "alice||bob" = some 4 ∧
    dictGet (addCheckIn ⟨[("alice||bob", 5)], [], [], [], []⟩ "alice" "bob" "").1.currentWeek
        "alice||bob" = some 5 :=
  ⟨(C9_addCheckIn_saturating ⟨[("alice||bob", 3)], [], [], [], []⟩ "alice" "bob" "" 3
      (by decide) (by decide) (by decide)).1 (by decide),
   (C9_addCheckIn_saturating ⟨[("alice||bob", 5)], [], [], [], []⟩ "alice" "bob" "" 5
      (by decide) (by decide) (by decide)).2 rfl⟩

/-! ### C10: a blank count cell is kept as count 0 -/

/-- C10: a raw row whose count cell trims to the empty string — with
owner, student and weekEnding present — is not treated as malformed:
`Number("")` is `0`, so the row is retained with count 0 and flows into
reconciliation. -/
theorem C10_blank_count_row_kept (r : List String)
    (ho : normalizeOwner (getCell r 0) ≠ "")
    (hs : jsTrim (getCell r 1) ≠ "")
    (hw : jsTrim (getCell r 2) ≠ "")
    (hc : jsTrim (getCell r 3) = "") :
    parseHistoryRow r = some ⟨normalizeOwner (getCell r 0), jsTrim (getCell r 1),
      jsTrim (getCell r 2), 0, jsTrim (getCell r 4)⟩ ∧
    readHistoryRows [["owner", "student", "week_ending", "checkins", "teacher"], r] =
      [⟨normalizeOwner (getCell r 0), jsTrim (getCell r 1), jsTrim (getCell r 2), 0,
        jsTrim (getCell r 4)⟩] := by
  have h1 : parseHistoryRow r = some ⟨normalizeOwner (getCell r 0), jsTrim (getCell r 1),
      jsTrim (getCell r 2), 0, jsTrim (getCell r 4)⟩ := by
    simp only [parseHistoryRow, hc]
    simp [jsNumber, ho, hs, hw]
  exact ⟨h1, by simp [readHistoryRows, h1]⟩

/-- Witness for C10: a row with owner, student and week present and a
whitespace-only count cell is kept with count 0. -/
theorem C10_blank_count_row_kept_witness :
    parseHistoryRow ["T ", "Sam", "2024-03-15", "   ", ""] =
      some ⟨"t", "Sam", "2024-03-15", 0, ""⟩ ∧
    readHistoryRows [["owner", "student", "week_ending", "checkins", "teacher"],
      ["T ", "Sam", "2024-03-15", "   ", ""]] = [⟨"t", "Sam", "2024-03-15", 0, ""⟩] :=
  C10_blank_count_row_kept ["T ", "Sam", "2024-03-15", "   ", ""]
    (by decide) (by decide) (by decide) (by decide)

/-! ### C7: no legacy/ownerless roster fallback exists in the code -/

theorem setAdd_ne_nil (l : List String) (x : String) : setAdd l x ≠ [] := by
  unfold setAdd
  split_ifs with h
  · intro hnil
    rw [hnil] at h
    exact absurd h (List.not_mem_nil x)
  · simp

theorem mem_setAdd (l : List String) (x y : String) :
    y ∈ setAdd l x ↔ y ∈ l ∨ y = x := by
  unfold setAdd
  split_ifs with h
  · constructor
    · exact Or.inl
    · rintro (hy | rfl)
      · exact hy
      · exact h
  · simp

theorem mem_foldl_setAdd (l : List String) (init : List String) (y : String) :
    y ∈ l.foldl setAdd init ↔ y ∈ init ∨ y ∈ l := by
  induction l generalizing init with
  | nil => simp
  | cons a t ih =>
      rw [List.foldl_cons, ih, mem_setAdd]
      simp [or_assoc]

theorem foldl_setAdd_eq_nil (l : List String) (init : List String) :
    l.foldl setAdd init = [] ↔ init = [] ∧ l = [] := by
  induction l generalizing init with
  | nil => simp
  | cons a t ih =>
      rw [List.foldl_cons, ih]
      simp [setAdd_ne_nil]

/-- Rows surviving `readStudentsList` always carry a non-blank owner
and student: ownerless (legacy) roster rows are dropped at read time. -/
theorem readStudentsList_fields_ne (values : List (List String)) (r : StudentRow)
    (h : r ∈ readStudentsList values) : r.owner ≠ "" ∧ r.student ≠ "" := by
  unfold readStudentsList at h
  split_ifs at h
  · simp at h
  · obtain ⟨row, _, hparse⟩ := List.mem_filterMap.mp h
    simp only [parseStudentRow] at hparse
    split_ifs at hparse with hcond
    push_neg at hcond
    obtain rfl := Option.some.inj hparse
    exact hcond

/-- Membership in the student list of `GET /`: a subject is listed iff
it is an explicit roster subject of this owner, a subject seen in this
owner's history rows, or the placeholder when both sources are empty. -/
theorem mem_listSubjects (srows : List StudentRow) (hrows : List HistoryRow)
    (owner s : String) :
    s ∈ listSubjects srows hrows owner ↔
      (s ∈ (srows.filter (fun r => r.owner == owner)).map StudentRow.student ∨
       s ∈ (hrows.filter (fun r => r.owner == owner)).map HistoryRow.student ∨
       (srows.filter (fun r => r.owner == owner) = [] ∧
        hrows.filter (fun r => r.owner == owner) = [] ∧ s = "Student 1")) := by
  unfold listSubjects
  rw [List.Perm.mem_iff (List.perm_insertionSort _ _)]
  by_cases hempty :
      (((hrows.filter (fun r => r.owner == owner)).map HistoryRow.student).foldl setAdd
        (((srows.filter (fun r => r.owner == owner)).map StudentRow.student).foldl setAdd [])) = []
  · have hsplit := (foldl_setAdd_eq_nil _ _).mp hempty
    have hs1 : (srows.filter (fun r => r.owner == owner)).map StudentRow.student = [] :=
      ((foldl_setAdd_eq_nil _ _).mp hsplit.1).2
    have hs2 : (hrows.filter (fun r => r.owner == owner)).map HistoryRow.student = [] :=
      hsplit.2
    simp only [hempty, List.isEmpty_nil, if_true, List.nil_append]
    simp [hs1, hs2, List.map_eq_nil_iff.mp hs1, List.map_eq_nil_iff.mp hs2, eq_comm]
  · have hne : (((hrows.filter (fun r => r.owner == owner)).map HistoryRow.student).foldl setAdd
        (((srows.filter (fun r => r.owner == owner)).map StudentRow.student).foldl setAdd [])).isEmpty = false := by
      rw [List.isEmpty_eq_false_iff_exists_mem]
      rcases List.exists_mem_of_ne_nil _ hempty with ⟨x, hx⟩
      exact ⟨x, hx⟩
    rw [hne]
    simp only [Bool.false_eq_true, if_false]
    rw [mem_foldl_setAdd, mem_foldl_setAdd]
    constructor
    · rintro ((h0 | h1) | h2)
      · simp at h0
      · exact Or.inl h1
      · exact Or.inr (Or.inl h2)
    · rintro (h1 | h2 | ⟨hs1, hs2, _⟩)
      · exact Or.inl (Or.inr h1)
      · exact Or.inr h2
      · exfalso
        apply hempty
        rw [foldl_setAdd_eq_nil, foldl_setAdd_eq_nil]
        simp [hs1, hs2]

/-- C7 counterexample: a roster sheet whose only data row is the
ownerless (legacy) entry "Legacy Kid", a tenant "alice" with no
explicit entries and no history: the student list is the placeholder
only — the legacy subject is not included even though the explicit set
is empty. -/
theorem C7_counterexample :
    (readStudentsList [["owner", "student"], ["", "Legacy Kid"]]).filter
        (fun r => r.owner == "alice") = [] ∧
    listSubjectsRaw [["owner", "student"], ["", "Legacy Kid"]]
        [["owner", "student", "week_ending", "checkins", "teacher"]] "alice" =
      ["Student 1"] ∧
    "Legacy Kid" ∉ listSubjectsRaw [["owner", "student"], ["", "Legacy Kid"]]
        [["owner", "student", "week_ending", "checkins", "teacher"]] "alice" :=
  ⟨rfl, rfl, by decide⟩

/-- C7 (amended): there is no legacy/ownerless fallback: rows without
an owner are dropped by the roster read unconditionally, and the
student list for a tenant is exactly the explicit roster subjects of
that tenant, the subjects of that tenant's ledger rows, and the
placeholder "Student 1" when both sources are empty. -/
theorem C7_no_legacy_fallback :
    (∀ (values : List (List String)) (r : StudentRow),
      r ∈ readStudentsList values → r.owner ≠ "" ∧ r.student ≠ "") ∧
    (∀ (sv hv : List (List String)) (owner s : String),
      s ∈ listSubjectsRaw sv hv owner ↔
        (s ∈ ((readStudentsList sv).filter (fun r => r.owner == owner)).map StudentRow.student ∨
         s ∈ ((readHistoryRows hv).filter (fun r => r.owner == owner)).map HistoryRow.student ∨
         ((readStudentsList sv).filter (fun r => r.owner == owner) = [] ∧
          (readHistoryRows hv).filter (fun r => r.owner == owner) = [] ∧
          s = "Student 1"))) :=
  ⟨readStudentsList_fields_ne,
   fun sv hv owner s => mem_listSubjects (readStudentsList sv) (readHistoryRows hv) owner s⟩

/-- Witness for C7: the roster-read component applied to a concrete
row with owner "T " and student "Sam". -/
theorem C7_no_legacy_fallback_witness :
    (⟨"t", "Sam"⟩ : StudentRow) ∈ readStudentsList [["owner", "student"], ["T ", "Sam"]] ∧
    (("t" : String) ≠ "" ∧ ("Sam" : String) ≠ "") :=
  ⟨by decide,
   C7_no_legacy_fallback.1 [["owner", "student"], ["T ", "Sam"]] ⟨"t", "Sam"⟩ (by decide)⟩

/-! ### C2: read-time reconciliation of the weekly history -/

/-- A history row belongs to the group of week `w` for this owner and
student. -/
def rowMatches (o sel w : String) (r : HistoryRow) : Bool :=
  r.owner == o && r.student == sel && r.weekEnding == w

theorem rowMatches_iff (o sel w : String) (r : HistoryRow) :
    rowMatches o sel w r = true ↔ (r.owner = o ∧ r.student = sel ∧ r.weekEnding = w) := by
  simp [rowMatches, and_assoc]

/-- The effect of one reconciliation step on the stored record of one
week: keep the stored record unless the new row strictly exceeds it. -/
def fmStep (acc : Option (Int × String)) (r : HistoryRow) : Option (Int × String) :=
  match acc with
  | none => some (r.checkins, r.teacher)
  | some p => if r.checkins > p.1 then some (r.checkins, r.teacher) else acc

theorem dictGet_summaryStep (o sel w : String) (m : List (String × (Int × String)))
    (r : HistoryRow) :
    dictGet (summaryStep o sel m r) w =
      if rowMatches o sel w r then fmStep (dictGet m w) r else dictGet m w := by
  by_cases ho : r.owner = o
  · by_cases hs : r.student = sel
    · have h1 : ¬ (r.owner ≠ o) := by simpa using ho
      have h2 : ¬ (r.student ≠ sel) := by simpa using hs
      rw [summaryStep, if_neg h1, if_neg h2]
      by_cases hw : r.weekEnding = w
      · subst hw
        rw [if_pos ((rowMatches_iff o sel r.weekEnding r).mpr ⟨ho, hs, rfl⟩)]
        cases hprev : dictGet m r.weekEnding with
        | none => simp [fmStep, dictGet_dictSet_self]
        | some prev =>
            dsimp only
            simp only [fmStep]
            split_ifs with h3
            · rw [dictGet_dictSet_self]
            · exact hprev
      · rw [if_neg (fun hm => hw ((rowMatches_iff o sel w r).mp hm).2.2)]
        cases hprev : dictGet m r.weekEnding with
        | none => exact dictGet_dictSet_ne m r.weekEnding w _ (Ne.symm hw)
        | some prev =>
            dsimp only
            split_ifs with h3
            · exact dictGet_dictSet_ne m r.weekEnding w _ (Ne.symm hw)
            · rfl
    · have h1 : ¬ (r.owner ≠ o) := by simpa using ho
      rw [summaryStep, if_neg h1, if_pos hs,
        if_neg (fun hm => hs ((rowMatches_iff o sel w r).mp hm).2.1)]
  · rw [summaryStep, if_pos ho,
      if_neg (fun hm => ho ((rowMatches_iff o sel w r).mp hm).1)]

/-- The reconciliation fold, observed at one weekEnding, is the
`fmStep` fold over exactly that week's group of rows. -/
theorem dictGet_foldl_summaryStep (o sel w : String) (rows : List HistoryRow)
    (m : List (String × (Int × String))) :
    dictGet (rows.foldl (summaryStep o sel) m) w =
      (rows.filter (rowMatches o sel w)).foldl fmStep (dictGet m w) := by
  induction rows generalizing m with
  | nil => rfl
  | cons r t ih =>
      rw [List.foldl_cons, ih, dictGet_summaryStep]
      by_cases hm : rowMatches o sel w r = true
      · rw [if_pos hm, List.filter_cons_of_pos hm, List.foldl_cons]
      · rw [if_neg (by simpa using hm), List.filter_cons_of_neg (by simpa using hm)]

theorem foldl_fmStep_isSome (g : List HistoryRow) (acc : Int × String) :
    g.foldl fmStep (some acc) ≠ none := by
  induction g generalizing acc with
  | nil => simp
  | cons a t ih =>
      rw [List.foldl_cons]
      simp only [fmStep]
      split_ifs
      · exact ih _
      · exact ih _

/-- Characterisation of the seeded `fmStep` fold: either nothing beat
the seed, or the result is the first row strictly above everything
before it and at least everything after it. -/
theorem foldl_fmStep_some_char (g : List HistoryRow) :
    ∀ (acc res : Int × String), g.foldl fmStep (some acc) = some res →
      (res = acc ∧ ∀ x ∈ g, x.checkins ≤ acc.1) ∨
      (∃ pre r post, g = pre ++ r :: post ∧ res = (r.checkins, r.teacher) ∧
        acc.1 < r.checkins ∧ (∀ x ∈ pre, x.checkins < r.checkins) ∧
        (∀ x ∈ post, x.checkins ≤ r.checkins)) := by
  induction g with
  | nil =>
      intro acc res h
      left
      refine ⟨(Option.some.inj h).symm, ?_⟩
      intro x hx
      exact absurd hx (List.not_mem_nil x)
  | cons a t ih =>
      intro acc res h
      rw [List.foldl_cons] at h
      by_cases hgt : acc.1 < a.checkins
      · have hstep : fmStep (some acc) a = some (a.checkins, a.teacher) := by
          simp [fmStep, hgt]
        rw [hstep] at h
        rcases ih _ _ h with ⟨hres, hall⟩ | ⟨pre, r, post, hg, hres, hlt, hpre, hpost⟩
        · right
          refine ⟨[], a, t, rfl, hres, hgt, ?_, ?_⟩
          · intro x hx
            exact absurd hx (List.not_mem_nil x)
          · intro x hx
            simpa using hall x hx
        · right
          refine ⟨a :: pre, r, post, by simp [hg], hres, ?_, ?_, hpost⟩
          · have : (a.checkins, a.teacher).1 < r.checkins := hlt
            omega
          · intro x hx
            rcases List.mem_cons.mp hx with rfl | hx'
            · exact hlt
            · exact hpre x hx'
      · have hstep : fmStep (some acc) a = some acc := by
          simp [fmStep, hgt]
        rw [hstep] at h
        rcases ih _ _ h with ⟨hres, hall⟩ | ⟨pre, r, post, hg, hres, hlt, hpre, hpost⟩
        · left
          refine ⟨hres, ?_⟩
          intro x hx
          rcases List.mem_cons.mp hx with rfl | hx'
          · omega
          · exact hall x hx'
        · right
          refine ⟨a :: pre, r, post, by simp [hg], hres, hlt, ?_, hpost⟩
          intro x hx
          rcases List.mem_cons.mp hx with rfl | hx'
          · omega
          · exact hpre x hx'

/-- Characterisation of the unseeded `fmStep` fold: the produced record
is the first row of the group attaining the group's maximum count. -/
theorem foldl_fmStep_none_char (g : List HistoryRow) (res : Int × String)
    (h : g.foldl fmStep none = some res) :
    ∃ pre r post, g = pre ++ r :: post ∧ res = (r.checkins, r.teacher) ∧
      (∀ x ∈ pre, x.checkins < r.checkins) ∧ (∀ x ∈ post, x.checkins ≤ r.checkins) := by
  cases g with
  | nil => simp [fmStep] at h
  | cons a t =>
      rw [List.foldl_cons] at h
      have hstep : fmStep none a = some (a.checkins, a.teacher) := rfl
      rw [hstep] at h
      rcases foldl_fmStep_some_char t _ _ h with ⟨hres, hall⟩ |
        ⟨pre, r, post, hg, hres, hlt, hpre, hpost⟩
      · refine ⟨[], a, t, rfl, hres, ?_, ?_⟩
        · intro x hx
          exact absurd hx (List.not_mem_nil x)
        · intro x hx
          simpa using hall x hx
      · refine ⟨a :: pre, r, post, by simp [hg], hres, ?_, hpost⟩
        intro x hx
        rcases List.mem_cons.mp hx with rfl | hx'
        · simpa using hlt
        · exact hpre x hx'

theorem foldl_fmStep_none_eq_none (g : List HistoryRow) :
    g.foldl fmStep none = none ↔ g = [] := by
  cases g with
  | nil => simp
  | cons a t =>
      rw [List.foldl_cons, show fmStep none a = some (a.checkins, a.teacher) from rfl]
      simp [foldl_fmStep_isSome t (a.checkins, a.teacher)]

theorem dictGet_eq_none_iff {α : Type} (m : List (String × α)) (k : String) :
    dictGet m k = none ↔ k ∉ m.map Prod.fst := by
  induction m with
  | nil => simp [dictGet]
  | cons p t ih =>
      by_cases h : p.1 = k
      · subst h
        simp [dictGet]
      · simp [dictGet, h, ih, Ne.symm h]

theorem dictSet_map_fst {α : Type} (m : List (String × α)) (k : String) (v : α) :
    (dictSet m k v).map Prod.fst =
      if k ∈ m.map Prod.fst then m.map Prod.fst else m.map Prod.fst ++ [k] := by
  induction m with
  | nil => simp [dictSet]
  | cons p t ih =>
      by_cases h : p.1 = k
      · subst h
        simp [dictSet]
      · by_cases hk : k ∈ t.map Prod.fst
        · simp [dictSet, h, ih, hk, Ne.symm h]
        · simp [dictSet, h, ih, hk, Ne.symm h]

theorem dictSet_keys_nodup {α : Type} (m : List (String × α)) (k : String) (v : α)
    (h : (m.map Prod.fst).Nodup) : ((dictSet m k v).map Prod.fst).Nodup := by
  rw [dictSet_map_fst]
  split_ifs with hk
  · exact h
  · simp [List.nodup_append, h, hk]

theorem summaryStep_keys_nodup (o sel : String) (m : List (String × (Int × String)))
    (r : HistoryRow) (h : (m.map Prod.fst).Nodup) :
    ((summaryStep o sel m r).map Prod.fst).Nodup := by
  by_cases h1 : r.owner ≠ o
  · rw [summaryStep, if_pos h1]
    exact h
  · by_cases h2 : r.student ≠ sel
    · rw [summaryStep, if_neg h1, if_pos h2]
      exact h
    · rw [summaryStep, if_neg h1, if_neg h2]
      cases hprev : dictGet m r.weekEnding with
      | none => exact dictSet_keys_nodup _ _ _ h
      | some prev =>
          dsimp only
          split_ifs with h3
          · exact dictSet_keys_nodup _ _ _ h
          · exact h

theorem foldl_summaryStep_keys_nodup (o sel : String) (rows : List HistoryRow)
    (m : List (String × (Int × String))) (h : (m.map Prod.fst).Nodup) :
    ((rows.foldl (summaryStep o sel) m).map Prod.fst).Nodup := by
  induction rows generalizing m with
  | nil => exact h
  | cons r t ih =>
      rw [List.foldl_cons]
      exact ih _ (summaryStep_keys_nodup o sel m r h)

theorem dictGet_of_mem_nodup {α : Type} (m : List (String × α)) (p : String × α)
    (hnd : (m.map Prod.fst).Nodup) (hp : p ∈ m) : dictGet m p.1 = some p.2 := by
  induction m with
  | nil => cases hp
  | cons q t ih =>
      rcases List.mem_cons.mp hp with rfl | hp'
      · simp [dictGet]
      · have hmem : p.1 ∈ t.map Prod.fst := List.mem_map_of_mem Prod.fst hp'
        have hq : q.1 ≠ p.1 := fun he => (List.nodup_cons.mp hnd).1 (he ▸ hmem)
        rw [dictGet, if_neg hq]
        exact ih (List.nodup_cons.mp hnd).2 hp'

instance : IsTotal SummaryEntry entriesDescLe :=
  ⟨fun a b => le_total b.weekEnding a.weekEnding⟩

instance : IsTrans SummaryEntry entriesDescLe :=
  ⟨fun _ _ _ hab hbc => le_trans hbc hab⟩

/-- C2: the reconciled weekly history has exactly one entry per
distinct weekEnding occurring among this owner+student's rows; each
entry carries the count and teacher of the first-seen row attaining
the maximum count of its week's group (so its count is that maximum);
the result is sorted by weekEnding descending; and two rows with the
same week and counts 3 and 5 reconcile, in either order, to the single
entry with count 5. -/
theorem C2_weeklySummary_reconciliation (owner selected : String)
    (rows : List HistoryRow) :
    ((weeklySummary owner selected rows).map SummaryEntry.weekEnding).Nodup ∧
    (∀ w, w ∈ (weeklySummary owner selected rows).map SummaryEntry.weekEnding ↔
      ∃ r ∈ rows, r.owner = owner ∧ r.student = selected ∧ r.weekEnding = w) ∧
    (∀ e ∈ weeklySummary owner selected rows, ∃ pre r post,
      rows.filter (rowMatches owner selected e.weekEnding) = pre ++ r :: post ∧
      e.checkins = r.checkins ∧ e.teacher = r.teacher ∧
      (∀ x ∈ pre, x.checkins < r.checkins) ∧
      (∀ x ∈ post, x.checkins ≤ r.checkins)) ∧
    (∀ e ∈ weeklySummary owner selected rows, ∀ r ∈ rows,
      r.owner = owner → r.student = selected → r.weekEnding = e.weekEnding →
      r.checkins ≤ e.checkins) ∧
    (weeklySummary owner selected rows).Sorted entriesDescLe ∧
    weeklySummary "t" "s"
        [⟨"t", "s", "2024-03-15", 3, "a"⟩, ⟨"t", "s", "2024-03-15", 5, "b"⟩] =
      [⟨"2024-03-15", 5, "b"⟩] ∧
    weeklySummary "t" "s"
        [⟨"t", "s", "2024-03-15", 5, "b"⟩, ⟨"t", "s", "2024-03-15", 3, "a"⟩] =
      [⟨"2024-03-15", 5, "b"⟩] := by
  set m := rows.foldl (summaryStep owner selected) [] with hmdef
  have hws : weeklySummary owner selected rows =
      List.insertionSort entriesDescLe
        (m.map (fun p => (⟨p.1, p.2.1, p.2.2⟩ : SummaryEntry))) := rfl
  have hmnd : (m.map Prod.fst).Nodup :=
    foldl_summaryStep_keys_nodup owner selected rows [] (by simp)
  have hget : ∀ w, dictGet m w =
      (rows.filter (rowMatches owner selected w)).foldl fmStep none := by
    intro w
    simpa using dictGet_foldl_summaryStep owner selected w rows []
  have hkeysmap :
      (m.map (fun p => (⟨p.1, p.2.1, p.2.2⟩ : SummaryEntry))).map SummaryEntry.weekEnding
        = m.map Prod.fst := by
    rw [List.map_map]
    rfl
  have hperm : List.Perm ((weeklySummary owner selected rows).map SummaryEntry.weekEnding)
      (m.map Prod.fst) := by
    rw [hws, ← hkeysmap]
    exact (List.perm_insertionSort _ _).map _
  have hmem : ∀ w, w ∈ m.map Prod.fst ↔
      ∃ r ∈ rows, rowMatches owner selected w r = true := by
    intro w
    constructor
    · intro hw
      by_contra hnone
      have hfil : rows.filter (rowMatches owner selected w) = [] := by
        rw [List.filter_eq_nil_iff]
        intro r hr hmr
        exact hnone ⟨r, hr, hmr⟩
      have hnil : dictGet m w = none := by
        rw [hget w, hfil]
        rfl
      exact (dictGet_eq_none_iff m w).mp hnil hw
    · rintro ⟨r, hr, hmatch⟩
      by_contra hw
      have hnil : dictGet m w = none := (dictGet_eq_none_iff m w).mpr hw
      rw [hget w, foldl_fmStep_none_eq_none] at hnil
      have : r ∈ rows.filter (rowMatches owner selected w) :=
        List.mem_filter.mpr ⟨hr, hmatch⟩
      rw [hnil] at this
      exact absurd this (List.not_mem_nil r)
  have hent : ∀ e ∈ weeklySummary owner selected rows, ∃ pre r post,
      rows.filter (rowMatches owner selected e.weekEnding) = pre ++ r :: post ∧
      e.checkins = r.checkins ∧ e.teacher = r.teacher ∧
      (∀ x ∈ pre, x.checkins < r.checkins) ∧
      (∀ x ∈ post, x.checkins ≤ r.checkins) := by
    intro e he
    rw [hws, List.mem_insertionSort] at he
    obtain ⟨p, hp, hpe⟩ := List.mem_map.mp he
    have hd : dictGet m p.1 = some p.2 := dictGet_of_mem_nodup m p hmnd hp
    rw [hget p.1] at hd
    obtain ⟨pre, r, post, hgeq, hres, hpre, hpost⟩ := foldl_fmStep_none_char _ _ hd
    subst hpe
    refine ⟨pre, r, post, hgeq, ?_, ?_, hpre, hpost⟩
    · show p.2.1 = r.checkins
      rw [hres]
    · show p.2.2 = r.teacher
      rw [hres]
  refine ⟨hperm.nodup_iff.mpr hmnd, ?_, hent, ?_, ?_, by decide, by decide⟩
  · intro w
    rw [hperm.mem_iff, hmem w]
    constructor
    · rintro ⟨r, hr, hm'⟩
      exact ⟨r, hr, (rowMatches_iff _ _ _ _).mp hm'⟩
    · rintro ⟨r, hr, hm'⟩
      exact ⟨r, hr, (rowMatches_iff _ _ _ _).mpr hm'⟩
  · intro e he r hr h1 h2 h3
    obtain ⟨pre, r0, post, hgeq, hc, _, hpre, hpost⟩ := hent e he
    have hrg : r ∈ rows.filter (rowMatches owner selected e.weekEnding) :=
      List.mem_filter.mpr ⟨hr, (rowMatches_iff _ _ _ _).mpr ⟨h1, h2, h3⟩⟩
    rw [hgeq] at hrg
    rcases List.mem_append.mp hrg with hpre' | hmid
    · have := hpre r hpre'
      omega
    · rcases List.mem_cons.mp hmid with rfl | hpost'
      · omega
      · have := hpost r hpost'
        omega
  · rw [hws]
    exact List.sorted_insertionSort _ _

/-- Witness for C2: the entry characterisation and the max property
applied on the concrete two-row batch with counts 3 and 5. -/
theorem C2_weeklySummary_reconciliation_witness :
    (∃ pre r post,
      ([⟨"t", "s", "2024-03-15", 3, "a"⟩, ⟨"t", "s", "2024-03-15", 5, "b"⟩] :
          List HistoryRow).filter (rowMatches "t" "s" "2024-03-15") =
        pre ++ r :: post ∧
      (5 : Int) = r.checkins ∧ ("b" : String) = r.teacher ∧
      (∀ x ∈ pre, x.checkins < r.checkins) ∧
      (∀ x ∈ post, x.checkins ≤ r.checkins)) ∧
    (3 : Int) ≤ 5 :=
  ⟨(C2_weeklySummary_reconciliation "t" "s"
      [⟨"t", "s", "2024-03-15", 3, "a"⟩, ⟨"t", "s", "2024-03-15", 5, "b"⟩]).2.2.1
        ⟨"2024-03-15", 5, "b"⟩ (by decide),
   (C2_weeklySummary_reconciliation "t" "s"
      [⟨"t", "s", "2024-03-15", 3, "a"⟩, ⟨"t", "s", "2024-03-15", 5, "b"⟩]).2.2.2.1
        ⟨"2024-03-15", 5, "b"⟩ (by decide)
        ⟨"t", "s", "2024-03-15", 3, "a"⟩ (by decide) rfl rfl rfl⟩

end Tracker
